import Mathlib

/-!
A verification development for the PDL (Product Development Lifecycle)
repository.  The definitions below are shallow embeddings of the
JavaScript source:

* the `mcp__pdl__transition_phase` tool handler and the SQL `UPDATE`
  statements it issues (`src/mcp-server/src/server.js`, backed by the
  `phases` and `events` tables of `src/mcp-server/src/db/schema.sql` and
  the helpers of `src/mcp-server/src/db/database.js`), and
* the in-process `PDLFramework` event bus
  (`pdl-framework.js`: history buffer, brief synthesis, hook registry,
  default hooks, offline event store).

Machine state (SQLite rows, JS arrays/sets/maps, `localStorage`) is
modelled with explicit Lean structures and lists; JS strings are Lean
`String`s (all strings involved are ASCII or single-code-unit characters,
so `substring`/length semantics agree).
-/

/-! ## Database model (mcp-server)

A row of the `phases` table (schema.sql, the columns the transition
handler touches).  Dates are abstract `Option Nat` timestamps:
`CURRENT_TIMESTAMP` at the time of a statement is passed in explicitly. -/

structure PhaseRow where
  id : String
  project_id : String
  name : String
  status : String
  start_date : Option Nat
  end_date : Option Nat
deriving DecidableEq, Repr

/-- A row of the `events` table, restricted to the columns `logEvent`
fills that the claims mention. -/
structure EventRow where
  id : String
  project_id : String
  type : String
  brief : String
  agent_id : Option String
deriving DecidableEq, Repr

/-- The database state seen by the MCP server: the `phases` and `events`
tables as row lists (insertion-ordered, as SQLite returns them without
ORDER BY). -/
structure ServerState where
  phases : List PhaseRow
  events : List EventRow
deriving Repr

/-- `Database.logEvent` (database.js): inserts one `events` row, with
`params.brief.substring(0, 60)` — the 60-character cap is enforced here,
in the persistence layer. -/
def logEvent (projectId type brief : String) (agentId : Option String)
    (eventId : String) (s : ServerState) : ServerState :=
  { s with events := s.events ++
      [{ id := eventId, project_id := projectId, type := type,
         brief := brief.take 60, agent_id := agentId }] }

/-- Effect of the first `UPDATE` of the `mcp__pdl__transition_phase`
handler on a single row: `SET status = 'completed',
end_date = CURRENT_TIMESTAMP WHERE project_id = ? AND name = ?`. -/
def completeRow (projectId fromPhase : String) (now : Nat)
    (p : PhaseRow) : PhaseRow :=
  if p.project_id = projectId ∧ p.name = fromPhase then
    { p with status := "completed", end_date := some now }
  else p

/-- Effect of the second `UPDATE` on a single row:
`SET status = 'active', start_date = CURRENT_TIMESTAMP
WHERE project_id = ? AND name = ?`. -/
def activateRow (projectId toPhase : String) (now : Nat)
    (p : PhaseRow) : PhaseRow :=
  if p.project_id = projectId ∧ p.name = toPhase then
    { p with status := "active", start_date := some now }
  else p

/-- First `UPDATE` of the `mcp__pdl__transition_phase` handler
(server.js): applied to every matching row of the table. -/
def markPhaseCompleted (projectId fromPhase : String) (now : Nat)
    (phases : List PhaseRow) : List PhaseRow :=
  phases.map (completeRow projectId fromPhase now)

/-- Second `UPDATE` of the handler. -/
def markPhaseActive (projectId toPhase : String) (now : Nat)
    (phases : List PhaseRow) : List PhaseRow :=
  phases.map (activateRow projectId toPhase now)

/-- The result object the handler returns:
`{ success: true, fromPhase, toPhase }`.  The handler has no other
return path (errors could only arise from SQL failures, which the
claims' states do not produce). -/
structure TransitionResult where
  success : Bool
  fromPhase : String
  toPhase : String
deriving DecidableEq, Repr

/-- The `mcp__pdl__transition_phase` tool handler (server.js lines
272–310): run the two `UPDATE`s, log one `phase_transition` event with
brief `Phase transition: ${fromPhase} → ${toPhase}`, and return
`{ success: true, … }`.  No validation, no lock, no error path. -/
def transition_phase (projectId fromPhase toPhase triggeredBy : String)
    (now : Nat) (eventId : String) (s : ServerState) :
    ServerState × TransitionResult :=
  let phases1 := markPhaseCompleted projectId fromPhase now s.phases
  let phases2 := markPhaseActive projectId toPhase now phases1
  let s' := logEvent projectId "phase_transition"
      ("Phase transition: " ++ fromPhase ++ " → " ++ toPhase)
      (some triggeredBy) eventId { s with phases := phases2 }
  (s', { success := true, fromPhase := fromPhase, toPhase := toPhase })

/-- Number of phases of a project whose persisted status is `active`. -/
def activeCount (projectId : String) (phases : List PhaseRow) : Nat :=
  (phases.filter fun p =>
    p.project_id == projectId && p.status == "active").length

/-- `Database.getCurrentPhase` (database.js): `SELECT * FROM phases WHERE
project_id = ? AND status = 'active' ORDER BY start_date DESC LIMIT 1`,
modelled as the row of maximal `start_date` among the active rows
(`none` sorts last, matching SQLite `NULL` ordering under `DESC`). -/
def getCurrentPhase (projectId : String) (phases : List PhaseRow) :
    Option PhaseRow :=
  let actives := phases.filter fun p =>
    p.project_id == projectId && p.status == "active"
  actives.foldl (fun best p =>
    match best with
    | none => some p
    | some b =>
        if (p.start_date.getD 0) > (b.start_date.getD 0) then some p
        else some b) none

/-- A three-phase project in the state the server's own test script
builds (test-server.js): `discovery` active, the rest pending. -/
def demoPhases : List PhaseRow :=
  [ { id := "ph1", project_id := "P", name := "discovery",
      status := "active", start_date := some 0, end_date := none },
    { id := "ph2", project_id := "P", name := "planning",
      status := "pending", start_date := none, end_date := none },
    { id := "ph3", project_id := "P", name := "development",
      status := "pending", start_date := none, end_date := none } ]

def demoState : ServerState := { phases := demoPhases, events := [] }

/-- The `events` row the handler logs, after `logEvent`'s
`substring(0, 60)`. -/
def transitionEventRow (projectId fromPhase toPhase triggeredBy eventId :
    String) : EventRow :=
  { id := eventId, project_id := projectId, type := "phase_transition",
    brief := ("Phase transition: " ++ fromPhase ++ " → " ++ toPhase).take 60,
    agent_id := some triggeredBy }

/-! ## Interleaving model for concurrent handler calls

Each `await`ed database statement of the handler is one atomic step; a
concurrent execution of two handler calls is an arbitrary interleaving
of their step sequences (sqlite serializes individual statements; the
handler holds no lock between them). -/

/-- One atomic database operation issued by the transition handler. -/
inductive DbOp where
  | complete (projectId fromPhase : String) (now : Nat)
  | activate (projectId toPhase : String) (now : Nat)
  | log (e : EventRow)
deriving DecidableEq, Repr

def applyOp (s : ServerState) : DbOp → ServerState
  | .complete pid f now =>
      { s with phases := markPhaseCompleted pid f now s.phases }
  | .activate pid t now =>
      { s with phases := markPhaseActive pid t now s.phases }
  | .log e => { s with events := s.events ++ [e] }

def execOps (s : ServerState) (ops : List DbOp) : ServerState :=
  ops.foldl applyOp s

/-- The step sequence of one `mcp__pdl__transition_phase` call: the two
`UPDATE`s followed by the `INSERT` of `logEvent`.  The handler then
returns `{ success: true }` unconditionally — there is no step at which
it could fail with `TransitionInProgress`. -/
def transitionOps (projectId fromPhase toPhase : String) (now : Nat)
    (e : EventRow) : List DbOp :=
  [DbOp.complete projectId fromPhase now,
   DbOp.activate projectId toPhase now,
   DbOp.log e]

/-- The `events` rows inserted by a step sequence, in order. -/
def logsOf : List DbOp → List EventRow
  | [] => []
  | DbOp.log e :: rest => e :: logsOf rest
  | DbOp.complete _ _ _ :: rest => logsOf rest
  | DbOp.activate _ _ _ :: rest => logsOf rest

/-- `Interleave l r m`: `m` is an interleaving of `l` and `r`
(each call's own steps stay in program order). -/
inductive Interleave : List DbOp → List DbOp → List DbOp → Prop where
  | nil : Interleave [] [] []
  | left {l r m : List DbOp} (x : DbOp) :
      Interleave l r m → Interleave (x :: l) r (x :: m)
  | right {l r m : List DbOp} (x : DbOp) :
      Interleave l r m → Interleave l (x :: r) (x :: m)

/-! ## Event bus model (`PDLFramework`, pdl-framework.js)

JS objects that only carry string fields (the event payloads the claims
mention) are ordered key/value lists; reading an absent property yields
the string `"undefined"` when interpolated, as in JS templates. -/

abbrev JsObj := List (String × String)

def lookupField (d : JsObj) (k : String) : String :=
  match d.find? (fun kv => kv.1 == k) with
  | some kv => kv.2
  | none => "undefined"

/-- `JSON.stringify` of a flat string-valued object. -/
def jsonStringify (d : JsObj) : String :=
  "\x7b" ++
    String.intercalate ","
      (d.map fun kv => "\"" ++ kv.1 ++ "\":\"" ++ kv.2 ++ "\"") ++
  "\x7d"

/-- `PDLFramework.generateBrief`: the `switch (eventType)` synthesizing a
brief from the payload.  Only the `default` arm truncates (50 chars of
JSON plus `"..."`); the named arms concatenate raw payload fields. -/
def generateBrief (eventType : String) (data : JsObj) : String :=
  if eventType == "phase_transition" then
    "Phase: " ++ lookupField data "from" ++ " → " ++ lookupField data "to"
  else if eventType == "agent_assigned" then
    "Agent: " ++ lookupField data "agent" ++ " (" ++
      lookupField data "role" ++ ")"
  else if eventType == "discovery" then
    "Found: " ++ lookupField data "summary"
  else if eventType == "research_complete" then
    "Research: " ++ lookupField data "topic" ++ " - " ++
      lookupField data "conclusion"
  else if eventType == "gate_review" then
    "Gate " ++ lookupField data "gate" ++ ": " ++ lookupField data "status"
  else
    (jsonStringify data).take 50 ++ "..."

/-- An event constructed by `PDLFramework.emit`.  `id` and `timestamp`
are abstract numbers (`generateEventId()` / `Date.now()` outputs are
inputs to the model). -/
structure PDLEvent where
  id : Nat
  type : String
  timestamp : Nat
  phase : String
  data : JsObj
  brief : String
  references : List String
  agent : String
deriving DecidableEq, Repr

/-- The `options` argument of `emit`. -/
structure EmitOptions where
  brief : Option String := none
  references : Option (List String) := none
  agent : Option String := none
deriving DecidableEq, Repr

/-- JS `o || dflt` for an optional string: `undefined` and the empty
string are both falsy. -/
def orElseStr (o : Option String) (dflt : String) : String :=
  match o with
  | some s => if s = "" then dflt else s
  | none => dflt

/-- In-memory state of one `PDLFramework` instance, together with its
observable outputs: `sentEvents` records `ws.send` calls,
`localStore` records `localStorage.setItem` calls (the durable offline
event store, new keys appended in call order). -/
structure PDLState where
  currentPhase : String
  activeAgents : List String
  eventHistory : List PDLEvent
  offlineMode : Bool
  wsOpen : Bool
  localStore : List (String × PDLEvent)
  sentEvents : List PDLEvent
deriving Repr

/-- `this.maxEventHistory = 1000` (set in the constructor). -/
def maxEventHistory : Nat := 1000

/-- `PDLFramework.addToHistory`: `push`, then if the length exceeds the
cap, `slice(-this.maxEventHistory)` keeps the last `maxEventHistory`
elements (the cap is 1000 > 0, so `slice(-cap)` is `drop (len - cap)`). -/
def addToHistory (event : PDLEvent) (history : List PDLEvent) :
    List PDLEvent :=
  let h := history ++ [event]
  if h.length > maxEventHistory then h.drop (h.length - maxEventHistory)
  else h

/-- JS `Set.prototype.add`: insertion-ordered, ignores duplicates. -/
def setAdd (l : List String) (a : String) : List String :=
  if a ∈ l then l else l ++ [a]

/-- The three hooks installed by `registerDefaultHooks`, as run by
`executeHooks` during `emit` for a default-constructed instance:
`phase_transition` sets `currentPhase := event.data.to`;
`agent_assigned` adds `event.data.agent` to `activeAgents`;
`development_note` only writes a note externally (no state change).
Visualization calls touch the DOM only. -/
def runDefaultHooks (eventType : String) (event : PDLEvent)
    (s : PDLState) : PDLState :=
  if eventType == "phase_transition" then
    { s with currentPhase := lookupField event.data "to" }
  else if eventType == "agent_assigned" then
    { s with activeAgents :=
        setAdd s.activeAgents (lookupField event.data "agent") }
  else s

/-- `PDLFramework.sendToServer`: send over the socket only when not in
offline mode and the socket is `OPEN`; otherwise, only in offline mode,
store the event under key `pdl_event_${event.id}` in `localStorage`.
A configured-but-closed socket hits neither branch: the event is
dropped. -/
def sendToServer (event : PDLEvent) (s : PDLState) : PDLState :=
  if !s.offlineMode && s.wsOpen then
    { s with sentEvents := s.sentEvents ++ [event] }
  else if s.offlineMode then
    { s with localStore := s.localStore ++
        [("pdl_event_" ++ toString event.id, event)] }
  else s

/-- Inputs of one `emit` call; `id`/`now` stand for the impure
`generateEventId()` / `Date.now()` results. -/
structure EmitArgs where
  id : Nat
  type : String
  data : JsObj
  options : EmitOptions := {}
  now : Nat := 0
deriving DecidableEq, Repr

/-- The event object `emit` constructs: `brief` is
`options.brief || generateBrief(type, data)` (no truncation here),
`phase` is the instance's `currentPhase` at call time. -/
def mkEvent (s : PDLState) (a : EmitArgs) : PDLEvent :=
  { id := a.id, type := a.type, timestamp := a.now,
    phase := s.currentPhase, data := a.data,
    brief := orElseStr a.options.brief (generateBrief a.type a.data),
    references := a.options.references.getD [],
    agent := orElseStr a.options.agent "system" }

/-- `PDLFramework.emit` for a default-constructed instance: build the
event, append to history, run the hooks, hand to `sendToServer`.
The source returns `event.id`; the model returns the whole event so
properties of the constructed event can be stated. -/
def emit (s : PDLState) (a : EmitArgs) : PDLState × PDLEvent :=
  let event := mkEvent s a
  let s1 := { s with eventHistory := addToHistory event s.eventHistory }
  let s2 := runDefaultHooks a.type event s1
  let s3 := sendToServer event s2
  (s3, event)

/-- A sequence of `emit` calls, collecting the constructed events. -/
def emitSeq (s : PDLState) : List EmitArgs → PDLState × List PDLEvent
  | [] => (s, [])
  | a :: rest =>
      let (s1, e) := emit s a
      let (s2, es) := emitSeq s1 rest
      (s2, e :: es)

/-- `PDLFramework.onConnectionOpen` (ws.onopen): logs to the console and
emits one local `system` event — nothing else; in particular it never
reads `localStorage`. -/
def onConnectionOpen (s : PDLState) (id now : Nat) : PDLState :=
  (emit s { id := id, type := "system",
            data := [("type", "connection"), ("status", "connected")],
            now := now }).1

/-- The state built by `new PDLFramework()` with no options: no
`wsUrl`, hence offline mode, `currentPhase = 'discovery'`, empty
history, empty agent set. -/
def initialState : PDLState :=
  { currentPhase := "discovery", activeAgents := [], eventHistory := [],
    offlineMode := true, wsOpen := false, localStore := [],
    sentEvents := [] }

/-- Return value of `PDLFramework.getCurrentState`:
`activeAgents` is `Array.from(this.activeAgents)` (insertion order),
`recentEvents` is `eventHistory.slice(-10)`. -/
structure CurrentState where
  phase : String
  activeAgents : List String
  recentEvents : List PDLEvent
  connected : Bool
deriving Repr

def getCurrentState (s : PDLState) : CurrentState :=
  { phase := s.currentPhase,
    activeAgents := s.activeAgents,
    recentEvents := s.eventHistory.drop (s.eventHistory.length - 10),
    connected := !s.offlineMode && s.wsOpen }

/-! ## Hook registry (`registerHook` / `executeHooks`) -/

/-- One entry of the per-type hook list: `{ fn, priority, async }`.
Handlers are identified by a number; `priority` defaults to 0 at
registration (`options.priority || 0`). -/
structure HookEntry where
  fn : Nat
  priority : Int
  async : Bool := false
deriving DecidableEq, Repr

/-- Stable insertion into a descending-sorted list: the new element goes
before the first strictly-smaller priority, after earlier-inserted equal
priorities processed later (see `sortHooks`). -/
def insertHook (h : HookEntry) : List HookEntry → List HookEntry
  | [] => [h]
  | x :: xs =>
      if h.priority ≥ x.priority then h :: x :: xs
      else x :: insertHook h xs

/-- Stable sort by descending priority.  The source sorts with
`(a, b) => b.priority - a.priority` via `Array.prototype.sort`, which is
stable (ES2019); insertion sort computes exactly that stable descending
order. -/
def sortHooks (l : List HookEntry) : List HookEntry :=
  l.foldr insertHook []

/-- `PDLFramework.registerHook` on one event type's list: push the new
entry, then re-sort the whole list by descending priority (stably). -/
def registerHook (hooks : List HookEntry) (h : HookEntry) :
    List HookEntry :=
  sortHooks (hooks ++ [h])

/-- Observable outcome of invoking one hook during dispatch: either it
returned normally or it threw and the error was caught and logged
(`console.error`), recording the message. -/
inductive HookOutcome where
  | ok (fn : Nat)
  | caught (fn : Nat) (msg : String)
deriving DecidableEq, Repr

def outcomeFn : HookOutcome → Nat
  | .ok f => f
  | .caught f _ => f

/-- `PDLFramework.executeHooks`: iterate the bound hook list in order;
each invocation is wrapped in `try/catch` (sync) or `.catch` (async), so
a throwing handler yields a `caught` outcome and iteration continues
with the next hook.  `beh` gives each handler's behaviour on an event:
normal return or a thrown error message. -/
def executeHooks (beh : Nat → PDLEvent → Except String Unit) :
    List HookEntry → PDLEvent → List HookOutcome
  | [], _ => []
  | h :: rest, e =>
      (match beh h.fn e with
       | .ok _ => HookOutcome.ok h.fn
       | .error m => HookOutcome.caught h.fn m) :: executeHooks beh rest e

/-- History contents after emitting a list of events into a fresh
buffer (the fold `addToHistory` performs across successive `emit`s). -/
def historyAfter (events : List PDLEvent) : List PDLEvent :=
  events.foldl (fun h e => addToHistory e h) []

/-- A minimal event with a given id, used for buffer scenarios. -/
def simpleEvent (i : Nat) : PDLEvent :=
  { id := i, type := "test", timestamp := i, phase := "discovery",
    data := [], brief := "b", references := [], agent := "system" }

/-- A state with a configured socket that is currently closed (`wsUrl`
given, so not offline mode, but `ws.readyState` is not `OPEN`). -/
def disconnectedState : PDLState :=
  { currentPhase := "discovery", activeAgents := [], eventHistory := [],
    offlineMode := false, wsOpen := false, localStore := [],
    sentEvents := [] }

/-- The moment the socket (re)opens, with one event already sitting in
the offline store. -/
def reconnectState : PDLState :=
  { currentPhase := "discovery", activeAgents := [], eventHistory := [],
    offlineMode := false, wsOpen := true,
    localStore := [("pdl_event_9", simpleEvent 9)], sentEvents := [] }


/-! ## Shared lemmas: phase rows under the handler's two `UPDATE`s -/

theorem completeRow_project_id (pid f : String) (now : Nat) (p : PhaseRow) :
    (completeRow pid f now p).project_id = p.project_id := by
  unfold completeRow; split <;> rfl

theorem completeRow_name (pid f : String) (now : Nat) (p : PhaseRow) :
    (completeRow pid f now p).name = p.name := by
  unfold completeRow; split <;> rfl

theorem activateRow_project_id (pid t : String) (now : Nat) (p : PhaseRow) :
    (activateRow pid t now p).project_id = p.project_id := by
  unfold activateRow; split <;> rfl

theorem activateRow_name (pid t : String) (now : Nat) (p : PhaseRow) :
    (activateRow pid t now p).name = p.name := by
  unfold activateRow; split <;> rfl

/-- Pointwise effect of the handler's two `UPDATE`s on whether a row
counts as an active phase of the project, assuming every active row of
the project is named `fromPhase`. -/
theorem active_after_updates (pid f t : String) (now : Nat) (p : PhaseRow)
    (hp : p.project_id = pid → p.status = "active" → p.name = f) :
    (((activateRow pid t now (completeRow pid f now p)).project_id == pid) &&
     ((activateRow pid t now (completeRow pid f now p)).status == "active"))
    = ((p.project_id == pid) && (p.name == t)) := by
  unfold completeRow activateRow
  by_cases hc : p.project_id = pid ∧ p.name = f
  · rw [if_pos hc]
    by_cases ha : p.project_id = pid ∧ p.name = t
    · rw [if_pos (by simpa using ha)]
      simp [ha.1, ha.2]
    · rw [if_neg (by simpa using ha)]
      have hnt : p.name ≠ t := fun h => ha ⟨hc.1, h⟩
      simp [hc.1, hnt]
  · rw [if_neg hc]
    by_cases ha : p.project_id = pid ∧ p.name = t
    · rw [if_pos ha]
      simp [ha.1, ha.2]
    · rw [if_neg ha]
      by_cases hpid : p.project_id = pid
      · have hnt : p.name ≠ t := fun h => ha ⟨hpid, h⟩
        have hs : p.status ≠ "active" := fun h => (fun hnf => hnf (hp hpid h)) (fun hf => hc ⟨hpid, hf⟩)
        simp [hpid, hnt, hs]
      · have hb : (p.project_id == pid) = false := by simpa using hpid
        simp [hb]

/-- A table whose `(project_id, name)` pairs are distinct (the schema's
`UNIQUE(project_id, name)`) has at most one row with a given pair. -/
theorem countP_pair_le_one (l : List PhaseRow) (pid t : String)
    (h : (l.map fun p => (p.project_id, p.name)).Nodup) :
    l.countP (fun p => p.project_id == pid && p.name == t) ≤ 1 := by
  induction l with
  | nil => simp
  | cons p l ih =>
      rw [List.map_cons, List.nodup_cons] at h
      obtain ⟨hnotin, hnd⟩ := h
      rw [List.countP_cons]
      by_cases hp : (p.project_id == pid && p.name == t) = true
      · have hz : l.countP (fun q => q.project_id == pid && q.name == t) = 0 := by
          rw [List.countP_eq_zero]
          intro q hq hqp
          apply hnotin
          simp only [Bool.and_eq_true, beq_iff_eq] at hp hqp
          rw [List.mem_map]
          exact ⟨q, hq, by rw [hqp.1, hqp.2, hp.1, hp.2]⟩
        simp [hp, hz]
      · simp only [Bool.not_eq_true] at hp
        simp [hp]
        exact ih hnd

/-! ## Claim C1: at most one active phase per project -/

/-- C1 (counterexample): the claim "executing `mcp__pdl__transition_phase`
never produces a state in which two phases of the same project are
simultaneously `active`" is false.  On the test script's own project
state (`discovery` active, `planning`/`development` pending), calling the
handler with `fromPhase = "planning"`, `toPhase = "development"` leaves
both `discovery` and `development` active: the handler validates nothing
before its two `UPDATE`s. -/
theorem two_active_phases_after_transition :
    activeCount "P"
      (transition_phase "P" "planning" "development" "agent" 5 "e1"
        demoState).1.phases = 2 := by decide

/-- C1 (amended): the handler preserves "at most one `active` phase per
project" only under the precondition the spec's state machine was meant
to check: every `active` phase of the project is the given `fromPhase`
(and the schema's `UNIQUE(project_id, name)` holds, so phase names are
unique per project).  Under those hypotheses the resulting state has at
most one active phase for the project. -/
theorem transition_phase_single_active_of_valid_from
    (pid f t tb : String) (now : Nat) (eid : String) (s : ServerState)
    (hkeys : (s.phases.map fun p => (p.project_id, p.name)).Nodup)
    (hactive : ∀ p ∈ s.phases,
      p.project_id = pid → p.status = "active" → p.name = f) :
    activeCount pid (transition_phase pid f t tb now eid s).1.phases ≤ 1 := by
  have hphases : (transition_phase pid f t tb now eid s).1.phases
      = (s.phases.map (completeRow pid f now)).map (activateRow pid t now) :=
    rfl
  rw [hphases, activeCount, ← List.countP_eq_length_filter,
    List.countP_map, List.countP_map]
  have hcongr : s.phases.countP
        (((fun p => p.project_id == pid && p.status == "active") ∘
          activateRow pid t now) ∘ completeRow pid f now)
      = s.phases.countP (fun p => p.project_id == pid && p.name == t) := by
    apply List.countP_congr
    intro p hpmem
    simp only [Function.comp_apply]
    rw [active_after_updates pid f t now p (hactive p hpmem)]
  rw [hcongr]
  exact countP_pair_le_one s.phases pid t hkeys

/-- C1 (witness): the amended theorem applied to the demo project with
the genuinely active `fromPhase = "discovery"`. -/
theorem transition_phase_single_active_witness :
    activeCount "P"
      (transition_phase "P" "discovery" "planning" "agent" 5 "e1"
        demoState).1.phases ≤ 1 :=
  transition_phase_single_active_of_valid_from "P" "discovery" "planning"
    "agent" 5 "e1" demoState (by decide) (by decide)

/-! ## Claim C2: validation of transition requests -/

/-- C2 (counterexample): the claim "a `transition_phase` call whose
`fromPhase` is not the current `active` phase fails with
`InvalidTransition`, emits no event and mutates nothing" is false.
On the demo state the current active phase is `discovery`, yet the call
with `fromPhase = "planning"` reports success, logs a `phase_transition`
event, and mutates `planning` to `completed` (and `development` to
`active`). -/
theorem transition_phase_succeeds_on_inactive_from :
    ((getCurrentPhase "P" demoState.phases).map PhaseRow.name
        = some "discovery") ∧
    (transition_phase "P" "planning" "development" "agent" 5 "e1"
        demoState).2.success = true ∧
    (transition_phase "P" "planning" "development" "agent" 5 "e1"
        demoState).1.events.length = 1 ∧
    (((transition_phase "P" "planning" "development" "agent" 5 "e1"
        demoState).1.phases.filter (fun p => p.name == "planning")).map
      PhaseRow.status) = ["completed"] := by decide

/-- C2 (amended): the handler performs no validation at all.  Every
call — whether or not `fromPhase` is active and whether or not `toPhase`
exists — returns `{ success: true }`, appends exactly one
`phase_transition` event row, and leaves every phase not named
`fromPhase` or `toPhase` untouched (while unconditionally completing the
former and activating the latter).  No `InvalidTransition` error path
exists in the handler. -/
theorem transition_phase_never_validates
    (pid f t tb : String) (now : Nat) (eid : String) (s : ServerState) :
    (transition_phase pid f t tb now eid s).2.success = true ∧
    (transition_phase pid f t tb now eid s).1.events
      = s.events ++ [transitionEventRow pid f t tb eid] ∧
    ∀ p ∈ s.phases, p.name ≠ f → p.name ≠ t →
      p ∈ (transition_phase pid f t tb now eid s).1.phases := by
  refine ⟨rfl, rfl, ?_⟩
  intro p hp hf ht
  have h1 : completeRow pid f now p = p := by
    unfold completeRow
    exact if_neg fun hc => hf hc.2
  have h2 : activateRow pid t now p = p := by
    unfold activateRow
    exact if_neg fun hc => ht hc.2
  show p ∈ (s.phases.map (completeRow pid f now)).map (activateRow pid t now)
  refine List.mem_map.mpr ⟨p, ?_, h2⟩
  exact List.mem_map.mpr ⟨p, hp, h1⟩

/-- C2 (witness): the amended theorem applied to the demo state with an
inactive `fromPhase`; the untouched-phase conclusion instantiated at the
`discovery` row. -/
theorem transition_phase_never_validates_witness :
    (transition_phase "P" "planning" "development" "agent" 5 "e1"
        demoState).2.success = true ∧
    (transition_phase "P" "planning" "development" "agent" 5 "e1"
        demoState).1.events
      = demoState.events ++
        [transitionEventRow "P" "planning" "development" "agent" "e1"] ∧
    ∀ p ∈ demoState.phases, p.name ≠ "planning" → p.name ≠ "development" →
      p ∈ (transition_phase "P" "planning" "development" "agent" 5 "e1"
        demoState).1.phases :=
  transition_phase_never_validates "P" "planning" "development" "agent"
    5 "e1" demoState

/-! ## Claim C3: concurrent transitions -/

theorem execOps_events (ops : List DbOp) (s : ServerState) :
    (execOps s ops).events = s.events ++ logsOf ops := by
  induction ops generalizing s with
  | nil => simp [execOps, logsOf]
  | cons op rest ih =>
      have hstep : execOps s (op :: rest) = execOps (applyOp s op) rest := rfl
      rw [hstep, ih]
      cases op with
      | complete pid f now => simp [applyOp, logsOf]
      | activate pid t now => simp [applyOp, logsOf]
      | log e => simp [applyOp, logsOf]

theorem interleave_sublist_left {l r m : List DbOp}
    (h : Interleave l r m) : l.Sublist m := by
  induction h with
  | nil => exact List.Sublist.refl []
  | left x _ ih => exact ih.cons₂ x
  | right x _ ih => exact ih.cons x

theorem interleave_sublist_right {l r m : List DbOp}
    (h : Interleave l r m) : r.Sublist m := by
  induction h with
  | nil => exact List.Sublist.refl []
  | left x _ ih => exact ih.cons x
  | right x _ ih => exact ih.cons₂ x

theorem interleave_logs_length {l r m : List DbOp}
    (h : Interleave l r m) :
    (logsOf m).length = (logsOf l).length + (logsOf r).length := by
  induction h with
  | nil => rfl
  | left x _ ih => cases x <;> simp [logsOf, ih] <;> omega
  | right x _ ih => cases x <;> simp [logsOf, ih] <;> omega

theorem mem_logsOf {e : EventRow} {ops : List DbOp}
    (h : DbOp.log e ∈ ops) : e ∈ logsOf ops := by
  induction ops with
  | nil => cases h
  | cons op rest ih =>
      rcases List.mem_cons.mp h with heq | hmem
      · rw [← heq]; simp [logsOf]
      · cases op <;> simp [logsOf] <;> [skip; skip; right] <;> exact ih hmem

/-- C3 (counterexample): the claim "of two concurrent `requestTransition`
calls on the same project exactly one succeeds and the other fails fast
with `TransitionInProgress` without performing any write" is false.  In
the genuinely interleaved schedule below — call A
(`discovery → planning`) is preempted after its first `UPDATE` by the
whole of call B (`discovery → development`) — both calls complete all of
their writes: both event rows are logged, and the resulting table has
TWO active phases for project `P`. -/
theorem concurrent_transitions_both_write :
    Interleave
      (transitionOps "P" "discovery" "planning" 5
        (transitionEventRow "P" "discovery" "planning" "agentA" "eA"))
      (transitionOps "P" "discovery" "development" 6
        (transitionEventRow "P" "discovery" "development" "agentB" "eB"))
      [DbOp.complete "P" "discovery" 5,
       DbOp.complete "P" "discovery" 6,
       DbOp.activate "P" "development" 6,
       DbOp.log (transitionEventRow "P" "discovery" "development" "agentB" "eB"),
       DbOp.activate "P" "planning" 5,
       DbOp.log (transitionEventRow "P" "discovery" "planning" "agentA" "eA")] ∧
    (execOps demoState
      [DbOp.complete "P" "discovery" 5,
       DbOp.complete "P" "discovery" 6,
       DbOp.activate "P" "development" 6,
       DbOp.log (transitionEventRow "P" "discovery" "development" "agentB" "eB"),
       DbOp.activate "P" "planning" 5,
       DbOp.log (transitionEventRow "P" "discovery" "planning" "agentA" "eA")]).events.length = 2 ∧
    activeCount "P"
      (execOps demoState
        [DbOp.complete "P" "discovery" 5,
         DbOp.complete "P" "discovery" 6,
         DbOp.activate "P" "development" 6,
         DbOp.log (transitionEventRow "P" "discovery" "development" "agentB" "eB"),
         DbOp.activate "P" "planning" 5,
         DbOp.log (transitionEventRow "P" "discovery" "planning" "agentA" "eA")]).phases = 2 :=
  ⟨Interleave.left _ (Interleave.right _ (Interleave.right _
      (Interleave.right _ (Interleave.left _ (Interleave.left _
        Interleave.nil))))),
   by decide, by decide⟩

/-- C3 (amended): there is no per-project transition lock and no
`TransitionInProgress` failure: the handler's step sequence has no
acquire/check step at all (`transitionOps`), so under every interleaving
of two concurrent calls' database steps BOTH calls run to completion and
perform their writes — the final event log is the prior log extended by
exactly the two calls' logged rows (one each, so two in total). -/
theorem interleaved_transitions_both_succeed
    (pid f1 t1 f2 t2 : String) (n1 n2 : Nat) (e1 e2 : EventRow)
    (s : ServerState) (m : List DbOp)
    (h : Interleave (transitionOps pid f1 t1 n1 e1)
          (transitionOps pid f2 t2 n2 e2) m) :
    (execOps s m).events = s.events ++ logsOf m ∧
    e1 ∈ (execOps s m).events ∧
    e2 ∈ (execOps s m).events ∧
    (execOps s m).events.length = s.events.length + 2 := by
  refine ⟨execOps_events m s, ?_, ?_, ?_⟩
  · have h1 : DbOp.log e1 ∈ m :=
      (interleave_sublist_left h).mem (by simp [transitionOps])
    rw [execOps_events m s]
    exact List.mem_append_right _ (mem_logsOf h1)
  · have h2 : DbOp.log e2 ∈ m :=
      (interleave_sublist_right h).mem (by simp [transitionOps])
    rw [execOps_events m s]
    exact List.mem_append_right _ (mem_logsOf h2)
  · rw [execOps_events m s, List.length_append, interleave_logs_length h]
    simp [transitionOps, logsOf]

/-- C3 (witness): the amended theorem applied to the concrete
interleaved schedule of the counterexample's two calls. -/
theorem interleaved_transitions_both_succeed_witness :
    (execOps demoState
      [DbOp.complete "P" "discovery" 5,
       DbOp.complete "P" "discovery" 6,
       DbOp.activate "P" "development" 6,
       DbOp.log (transitionEventRow "P" "discovery" "development" "agentB" "eB"),
       DbOp.activate "P" "planning" 5,
       DbOp.log (transitionEventRow "P" "discovery" "planning" "agentA" "eA")]).events.length
      = demoState.events.length + 2 :=
  (interleaved_transitions_both_succeed "P" "discovery" "planning"
    "discovery" "development" 5 6
    (transitionEventRow "P" "discovery" "planning" "agentA" "eA")
    (transitionEventRow "P" "discovery" "development" "agentB" "eB")
    demoState _
    (Interleave.left _ (Interleave.right _ (Interleave.right _
      (Interleave.right _ (Interleave.left _ (Interleave.left _
        Interleave.nil))))))).2.2.2

/-! ## Claim C4: bounded FIFO history buffer -/

theorem addToHistory_eq (e : PDLEvent) (h : List PDLEvent) :
    addToHistory e h =
      if h.length + 1 > maxEventHistory then
        (h ++ [e]).drop (h.length + 1 - maxEventHistory)
      else h ++ [e] := by
  unfold addToHistory
  simp [List.length_append]

/-- Closed form of the buffer after any emission sequence into a fresh
buffer: exactly the most recent `maxEventHistory` events, i.e. the
emission sequence with its oldest overflow dropped from the front. -/
theorem historyAfter_eq (es : List PDLEvent) :
    historyAfter es = es.drop (es.length - maxEventHistory) := by
  induction es using List.reverseRecOn with
  | nil => rfl
  | append_singleton xs x ih =>
      have hstep : historyAfter (xs ++ [x]) =
          addToHistory x (historyAfter xs) := by
        simp [historyAfter, List.foldl_append]
      rw [hstep, ih, addToHistory_eq]
      simp only [List.length_drop, List.length_append, List.length_cons,
        List.length_nil, maxEventHistory]
      by_cases hlen : xs.length < 1000
      · rw [if_neg (by omega)]
        have h1 : xs.length - 1000 = 0 := by omega
        have h2 : xs.length + 1 - 1000 = 0 := by omega
        rw [h1, h2, List.drop_zero, List.drop_zero]
      · rw [if_pos (by omega)]
        have h1 : xs.length - (xs.length - 1000) + 1 - 1000 = 1 := by omega
        rw [h1]
        rw [List.drop_append_of_le_length
          (by simp only [List.length_drop]; omega)]
        rw [List.drop_drop]
        rw [List.drop_append_of_le_length (by omega)]
        have h2 : xs.length - 1000 + 1 = xs.length + 1 - 1000 := by omega
        rw [h2]

/-- C4 (confirmed): for every emission sequence the history buffer holds
at most `maxEventHistory` (1000) events; eviction is strict FIFO by
insertion order (the buffer is exactly the suffix of the emission
sequence that fits); and after emitting 1200 events sequentially the
buffer has length 1000 and its first element is the 201st emitted event
(index 200 of the emission sequence). -/
theorem history_buffer_bounded_fifo :
    (∀ es : List PDLEvent, (historyAfter es).length ≤ maxEventHistory) ∧
    (∀ es : List PDLEvent,
      historyAfter es = es.drop (es.length - maxEventHistory)) ∧
    (historyAfter ((List.range 1200).map simpleEvent)).length = 1000 ∧
    (historyAfter ((List.range 1200).map simpleEvent)).head?
      = some (simpleEvent 200) := by
  refine ⟨?_, historyAfter_eq, ?_, ?_⟩
  · intro es
    rw [historyAfter_eq, List.length_drop]
    show es.length - (es.length - 1000) ≤ 1000
    omega
  · rw [historyAfter_eq, List.length_drop]
    simp [maxEventHistory]
  · rw [historyAfter_eq, List.head?_drop]
    simp [maxEventHistory, List.getElem?_range]

/-! ## Claim C5: 60-character brief cap -/

set_option maxRecDepth 4000 in
/-- C5 (code bug): the repository's own documentation (the event schema
"brief: string; // Max 60 chars", the architecture notes "Event brief
limited to 60 characters", and the `events` table comment "Max 60
chars") promises a 60-character cap, and the persistence layer's
`logEvent` enforces it with `substring(0, 60)` — but `PDLFramework.emit`
does not: a synthesized `discovery` brief for a 60-character summary is
67 characters long (`generateBrief` only truncates in its `default`
arm), and a caller-supplied 61-character brief is used verbatim.  Only
the database write is capped. -/
theorem emit_brief_exceeds_sixty_chars :
    (emit initialState
      { id := 1, type := "discovery",
        data := [("summary",
          String.mk (List.replicate 60 'a'))] }).2.brief.length = 67 ∧
    (emit initialState
      { id := 2, type := "note", data := [],
        options :=
          { brief := some (String.mk (List.replicate 61 'b')) } }).2.brief.length
      = 61 ∧
    generateBrief "discovery"
        [("summary", String.mk (List.replicate 60 'a'))]
      = "Found: " ++ String.mk (List.replicate 60 'a') ∧
    (logEvent "P" "discovery"
        ("Found: " ++ String.mk (List.replicate 60 'a')) none "e1"
        { phases := [], events := [] }).events.map
          (fun e => e.brief.length) = [60] := by
  refine ⟨by decide, by decide, by decide, by decide⟩

/-! ## Claim C6: handler failures are isolated -/

theorem executeHooks_map_fn (beh : Nat → PDLEvent → Except String Unit)
    (hooks : List HookEntry) (e : PDLEvent) :
    (executeHooks beh hooks e).map outcomeFn = hooks.map HookEntry.fn := by
  induction hooks with
  | nil => rfl
  | cons h rest ih =>
      cases hbeh : beh h.fn e with
      | ok u => simp [executeHooks, hbeh, outcomeFn, ih]
      | error m => simp [executeHooks, hbeh, outcomeFn, ih]

/-- C6 (confirmed): dispatch wraps every handler invocation in its own
`try/catch`, so a synchronous handler that throws produces a `caught`
(logged) outcome and the remaining, lower-priority handlers are
dispatched exactly as they would have been without the failure; dispatch
always covers the full handler list in order. -/
theorem executeHooks_isolates_handler_errors
    (beh : Nat → PDLEvent → Except String Unit) (h : HookEntry)
    (rest : List HookEntry) (e : PDLEvent) (m : String)
    (hthrow : beh h.fn e = Except.error m) :
    executeHooks beh (h :: rest) e
      = HookOutcome.caught h.fn m :: executeHooks beh rest e ∧
    (executeHooks beh (h :: rest) e).map outcomeFn
      = (h :: rest).map HookEntry.fn := by
  constructor
  · simp [executeHooks, hthrow]
  · exact executeHooks_map_fn beh (h :: rest) e

/-- C6 (witness): a concrete dispatch in which the first (higher
priority) handler throws and the second still runs. -/
theorem executeHooks_isolates_handler_errors_witness :
    executeHooks
        (fun n _ => if n = 0 then Except.error "boom" else Except.ok ())
        ({ fn := 0, priority := 1 } :: [{ fn := 1, priority := 0 }])
        (simpleEvent 0)
      = HookOutcome.caught 0 "boom" ::
        executeHooks
          (fun n _ => if n = 0 then Except.error "boom" else Except.ok ())
          [{ fn := 1, priority := 0 }] (simpleEvent 0) ∧
    (executeHooks
        (fun n _ => if n = 0 then Except.error "boom" else Except.ok ())
        ({ fn := 0, priority := 1 } :: [{ fn := 1, priority := 0 }])
        (simpleEvent 0)).map outcomeFn
      = ({ fn := 0, priority := 1 } :: [{ fn := 1, priority := 0 }]).map
          HookEntry.fn :=
  executeHooks_isolates_handler_errors
    (fun n _ => if n = 0 then Except.error "boom" else Except.ok ())
    { fn := 0, priority := 1 } [{ fn := 1, priority := 0 }]
    (simpleEvent 0) "boom" rfl

/-! ## Claim C7: dispatch order of registered hooks -/

theorem insertHook_perm (h : HookEntry) (l : List HookEntry) :
    List.Perm (insertHook h l) (h :: l) := by
  induction l with
  | nil => exact List.Perm.refl _
  | cons x xs ih =>
      unfold insertHook
      by_cases hp : h.priority ≥ x.priority
      · rw [if_pos hp]
      · rw [if_neg hp]
        exact (ih.cons x).trans (List.Perm.swap h x xs)

theorem insertHook_pairwise (h : HookEntry) (l : List HookEntry)
    (hl : l.Pairwise fun a b => b.priority ≤ a.priority) :
    (insertHook h l).Pairwise fun a b => b.priority ≤ a.priority := by
  induction l with
  | nil => simp [insertHook]
  | cons x xs ih =>
      rw [List.pairwise_cons] at hl
      obtain ⟨hx, hxs⟩ := hl
      unfold insertHook
      by_cases hp : h.priority ≥ x.priority
      · rw [if_pos hp]
        refine List.pairwise_cons.mpr ⟨?_, List.pairwise_cons.mpr ⟨hx, hxs⟩⟩
        intro y hy
        rcases List.mem_cons.mp hy with rfl | hy'
        · exact hp
        · exact le_trans (hx y hy') hp
      · rw [if_neg hp]
        refine List.pairwise_cons.mpr ⟨?_, ih hxs⟩
        intro y hy
        rcases List.mem_cons.mp ((insertHook_perm h xs).mem_iff.mp hy)
          with rfl | hy'
        · exact le_of_lt (lt_of_not_ge hp)
        · exact hx y hy'

theorem filter_insertHook (h : HookEntry) (l : List HookEntry) (pr : Int) :
    (insertHook h l).filter (fun x => x.priority == pr)
      = if h.priority = pr
        then h :: l.filter (fun x => x.priority == pr)
        else l.filter (fun x => x.priority == pr) := by
  induction l with
  | nil =>
      by_cases hb : h.priority = pr
      · simp [insertHook, hb]
      · simp [insertHook, hb]
  | cons x xs ih =>
      unfold insertHook
      by_cases hp : h.priority ≥ x.priority
      · rw [if_pos hp]
        by_cases hb : h.priority = pr
        · simp [List.filter_cons, hb]
        · simp [List.filter_cons, hb]
      · rw [if_neg hp]
        by_cases hb : h.priority = pr
        · have hx : ¬ x.priority = pr := by
            intro hxeq
            exact hp (by rw [hxeq, hb])
          simp [List.filter_cons, hb, hx, ih]
        · simp [List.filter_cons, hb, ih]

theorem sortHooks_pairwise (l : List HookEntry) :
    (sortHooks l).Pairwise fun a b => b.priority ≤ a.priority := by
  induction l with
  | nil => simp [sortHooks]
  | cons a l ih =>
      have h1 : sortHooks (a :: l) = insertHook a (sortHooks l) := rfl
      rw [h1]
      exact insertHook_pairwise a _ ih

theorem sortHooks_filter (l : List HookEntry) (pr : Int) :
    (sortHooks l).filter (fun x => x.priority == pr)
      = l.filter (fun x => x.priority == pr) := by
  induction l with
  | nil => rfl
  | cons a l ih =>
      have h1 : sortHooks (a :: l) = insertHook a (sortHooks l) := rfl
      rw [h1, filter_insertHook]
      by_cases hb : a.priority = pr
      · simp [List.filter_cons, hb, ih]
      · simp [List.filter_cons, hb, ih]

/-- C7 (confirmed): after any sequence of `registerHook` calls the
per-type hook list is sorted by descending priority, and the entries of
any one priority appear in registration order (the re-sort on
registration is stable); `executeHooks` then invokes exactly that list
in order, so dispatch runs handlers in descending priority with ties in
registration order. -/
theorem registerHook_priority_order_stable (regs : List HookEntry) :
    (regs.foldl registerHook []).Pairwise
      (fun a b => b.priority ≤ a.priority) ∧
    (∀ pr : Int, (regs.foldl registerHook []).filter
        (fun x => x.priority == pr)
      = regs.filter (fun x => x.priority == pr)) ∧
    ∀ (beh : Nat → PDLEvent → Except String Unit) (e : PDLEvent),
      (executeHooks beh (regs.foldl registerHook []) e).map outcomeFn
        = (regs.foldl registerHook []).map HookEntry.fn := by
  refine ⟨?_, ?_, ?_⟩
  · induction regs using List.reverseRecOn with
    | nil => simp
    | append_singleton xs x ih =>
        simp only [List.foldl_append, List.foldl_cons, List.foldl_nil,
          registerHook]
        exact sortHooks_pairwise _
  · intro pr
    induction regs using List.reverseRecOn with
    | nil => rfl
    | append_singleton xs x ih =>
        simp only [List.foldl_append, List.foldl_cons, List.foldl_nil,
          registerHook]
        rw [sortHooks_filter, List.filter_append, ih, ← List.filter_append]
  · intro beh e
    exact executeHooks_map_fn beh _ e

/-! ## Shared lemmas: field effects of one `emit` call -/

theorem runDefaultHooks_offlineMode (t : String) (e : PDLEvent)
    (s : PDLState) : (runDefaultHooks t e s).offlineMode = s.offlineMode := by
  unfold runDefaultHooks; split_ifs <;> rfl

theorem runDefaultHooks_wsOpen (t : String) (e : PDLEvent) (s : PDLState) :
    (runDefaultHooks t e s).wsOpen = s.wsOpen := by
  unfold runDefaultHooks; split_ifs <;> rfl

theorem runDefaultHooks_localStore (t : String) (e : PDLEvent)
    (s : PDLState) : (runDefaultHooks t e s).localStore = s.localStore := by
  unfold runDefaultHooks; split_ifs <;> rfl

theorem runDefaultHooks_sentEvents (t : String) (e : PDLEvent)
    (s : PDLState) : (runDefaultHooks t e s).sentEvents = s.sentEvents := by
  unfold runDefaultHooks; split_ifs <;> rfl

theorem runDefaultHooks_eventHistory (t : String) (e : PDLEvent)
    (s : PDLState) :
    (runDefaultHooks t e s).eventHistory = s.eventHistory := by
  unfold runDefaultHooks; split_ifs <;> rfl

theorem runDefaultHooks_currentPhase (t : String) (e : PDLEvent)
    (s : PDLState) :
    (runDefaultHooks t e s).currentPhase
      = if t == "phase_transition" then lookupField e.data "to"
        else s.currentPhase := by
  unfold runDefaultHooks; split_ifs <;> rfl

theorem runDefaultHooks_activeAgents (t : String) (e : PDLEvent)
    (s : PDLState) :
    (runDefaultHooks t e s).activeAgents
      = if t == "agent_assigned"
        then setAdd s.activeAgents (lookupField e.data "agent")
        else s.activeAgents := by
  unfold runDefaultHooks; split_ifs <;> simp_all

theorem sendToServer_currentPhase (e : PDLEvent) (s : PDLState) :
    (sendToServer e s).currentPhase = s.currentPhase := by
  unfold sendToServer; split_ifs <;> rfl

theorem sendToServer_activeAgents (e : PDLEvent) (s : PDLState) :
    (sendToServer e s).activeAgents = s.activeAgents := by
  unfold sendToServer; split_ifs <;> rfl

theorem sendToServer_offlineMode (e : PDLEvent) (s : PDLState) :
    (sendToServer e s).offlineMode = s.offlineMode := by
  unfold sendToServer; split_ifs <;> rfl

theorem sendToServer_wsOpen (e : PDLEvent) (s : PDLState) :
    (sendToServer e s).wsOpen = s.wsOpen := by
  unfold sendToServer; split_ifs <;> rfl

theorem sendToServer_localStore (e : PDLEvent) (s : PDLState) :
    (sendToServer e s).localStore
      = if s.offlineMode
        then s.localStore ++ [("pdl_event_" ++ toString e.id, e)]
        else s.localStore := by
  unfold sendToServer; split_ifs <;> simp_all

theorem sendToServer_sentEvents (e : PDLEvent) (s : PDLState) :
    (sendToServer e s).sentEvents
      = if !s.offlineMode && s.wsOpen then s.sentEvents ++ [e]
        else s.sentEvents := by
  unfold sendToServer; split_ifs <;> simp_all

theorem emit_snd (s : PDLState) (a : EmitArgs) :
    (emit s a).2 = mkEvent s a := rfl

theorem emit_offlineMode (s : PDLState) (a : EmitArgs) :
    (emit s a).1.offlineMode = s.offlineMode := by
  show (sendToServer _ _).offlineMode = _
  rw [sendToServer_offlineMode, runDefaultHooks_offlineMode]

theorem emit_wsOpen (s : PDLState) (a : EmitArgs) :
    (emit s a).1.wsOpen = s.wsOpen := by
  show (sendToServer _ _).wsOpen = _
  rw [sendToServer_wsOpen, runDefaultHooks_wsOpen]

theorem emit_currentPhase (s : PDLState) (a : EmitArgs) :
    (emit s a).1.currentPhase
      = if a.type == "phase_transition" then lookupField a.data "to"
        else s.currentPhase := by
  show (sendToServer _ _).currentPhase = _
  rw [sendToServer_currentPhase, runDefaultHooks_currentPhase]
  rfl

theorem emit_activeAgents (s : PDLState) (a : EmitArgs) :
    (emit s a).1.activeAgents
      = if a.type == "agent_assigned"
        then setAdd s.activeAgents (lookupField a.data "agent")
        else s.activeAgents := by
  show (sendToServer _ _).activeAgents = _
  rw [sendToServer_activeAgents, runDefaultHooks_activeAgents]
  rfl

theorem emit_localStore (s : PDLState) (a : EmitArgs) :
    (emit s a).1.localStore
      = if s.offlineMode
        then s.localStore ++ [("pdl_event_" ++ toString a.id, mkEvent s a)]
        else s.localStore := by
  show (sendToServer _ _).localStore = _
  rw [sendToServer_localStore, runDefaultHooks_offlineMode,
    runDefaultHooks_localStore]
  rfl

theorem emit_sentEvents (s : PDLState) (a : EmitArgs) :
    (emit s a).1.sentEvents
      = if !s.offlineMode && s.wsOpen then s.sentEvents ++ [mkEvent s a]
        else s.sentEvents := by
  show (sendToServer _ _).sentEvents = _
  rw [sendToServer_sentEvents, runDefaultHooks_offlineMode,
    runDefaultHooks_wsOpen, runDefaultHooks_sentEvents]

/-! ## Claim C8: offline buffering and replay -/

theorem emitSeq_fst (s : PDLState) (a : EmitArgs) (rest : List EmitArgs) :
    (emitSeq s (a :: rest)).1 = (emitSeq (emit s a).1 rest).1 := rfl

theorem emitSeq_snd (s : PDLState) (a : EmitArgs) (rest : List EmitArgs) :
    (emitSeq s (a :: rest)).2
      = (emit s a).2 :: (emitSeq (emit s a).1 rest).2 := rfl

theorem emitSeq_localStore_offline (argsL : List EmitArgs) :
    ∀ s : PDLState, s.offlineMode = true →
      (emitSeq s argsL).1.localStore
        = s.localStore ++ (emitSeq s argsL).2.map
            (fun e => ("pdl_event_" ++ toString e.id, e)) := by
  induction argsL with
  | nil => intro s _; simp [emitSeq]
  | cons a rest ih =>
      intro s hoff
      have hoff1 : (emit s a).1.offlineMode = true := by
        rw [emit_offlineMode]; exact hoff
      have hstore : (emit s a).1.localStore
          = s.localStore ++ [("pdl_event_" ++ toString a.id, mkEvent s a)] := by
        rw [emit_localStore, hoff]
        rfl
      rw [emitSeq_fst, emitSeq_snd, ih _ hoff1, hstore, emit_snd]
      simp only [List.map_cons, List.append_assoc, List.singleton_append]
      rfl

/-- C8 (counterexample): the claim is false on two counts.  First, in a
state that is "not connected" but not in offline mode (a `wsUrl` was
configured and the socket is closed), an emitted event is written
nowhere: `sendToServer`'s `else if (this.offlineMode)` branch is not
taken, so the durable offline buffer stays empty and nothing is sent.
Second, on the transition to connected, `onConnectionOpen` does not
flush the offline buffer: with a buffered event in `localStorage`, the
only thing sent is the freshly emitted `system` announcement (id 42),
and the buffered entry (id 9) stays in the store, unsent. -/
theorem offline_buffer_claim_false :
    ((emit disconnectedState
        { id := 1, type := "discovery",
          data := [("summary", "x")] }).1.localStore = []) ∧
    ((emit disconnectedState
        { id := 1, type := "discovery",
          data := [("summary", "x")] }).1.sentEvents = []) ∧
    ((onConnectionOpen reconnectState 42 7).sentEvents.map PDLEvent.id
      = [42]) ∧
    ((onConnectionOpen reconnectState 42 7).localStore
      = [("pdl_event_9", simpleEvent 9)]) := by
  refine ⟨by decide, by decide, by decide, by decide⟩

/-- C8 (amended): only the constructor-time offline mode buffers events
durably: in offline mode every emitted event appends exactly one entry
keyed `pdl_event_${id}` to `localStorage`, in emission order (so three
offline emits yield three entries in order).  But there is no replay:
with a configured socket, events emitted while it is closed are dropped
(neither sent nor buffered), and on connection open the framework only
emits a fresh local `system` event — the offline store is never read or
flushed. -/
theorem offline_buffer_behavior
    (s : PDLState) (hoff : s.offlineMode = true) (argsL : List EmitArgs)
    (s' : PDLState) (hoff' : s'.offlineMode = false)
    (hws' : s'.wsOpen = false) (a : EmitArgs)
    (s'' : PDLState) (hoff'' : s''.offlineMode = false)
    (hws'' : s''.wsOpen = true) (id now : Nat) :
    ((emitSeq s argsL).1.localStore
      = s.localStore ++ (emitSeq s argsL).2.map
          (fun e => ("pdl_event_" ++ toString e.id, e))) ∧
    ((emit s' a).1.localStore = s'.localStore) ∧
    ((emit s' a).1.sentEvents = s'.sentEvents) ∧
    ((onConnectionOpen s'' id now).localStore = s''.localStore) ∧
    ((onConnectionOpen s'' id now).sentEvents
      = s''.sentEvents ++
        [mkEvent s''
          { id := id, type := "system",
            data := [("type", "connection"), ("status", "connected")],
            now := now }]) := by
  refine ⟨emitSeq_localStore_offline argsL s hoff, ?_, ?_, ?_, ?_⟩
  · rw [emit_localStore, hoff']
    rfl
  · rw [emit_sentEvents, hoff', hws']
    rfl
  · show (emit s'' _).1.localStore = _
    rw [emit_localStore, hoff'']
    rfl
  · show (emit s'' _).1.sentEvents = _
    rw [emit_sentEvents, hoff'', hws'']
    rfl

/-- C8 (witness): the offline-buffering conclusion at the default
(offline) instance with three concrete emits. -/
theorem offline_buffer_behavior_witness :
    (emitSeq initialState
      [{ id := 1, type := "n1", data := [] },
       { id := 2, type := "n2", data := [] },
       { id := 3, type := "n3", data := [] }]).1.localStore
      = initialState.localStore ++
        (emitSeq initialState
          [{ id := 1, type := "n1", data := [] },
           { id := 2, type := "n2", data := [] },
           { id := 3, type := "n3", data := [] }]).2.map
            (fun e => ("pdl_event_" ++ toString e.id, e)) :=
  (offline_buffer_behavior initialState rfl
    [{ id := 1, type := "n1", data := [] },
     { id := 2, type := "n2", data := [] },
     { id := 3, type := "n3", data := [] }]
    disconnectedState rfl rfl
    { id := 4, type := "n4", data := [] }
    reconnectState rfl rfl 42 7).1

/-! ## Claim C9: `phase_transition` hook maintains the phase context -/

theorem emitSeq_currentPhase_frozen (rest : List EmitArgs) :
    ∀ s : PDLState, (∀ b ∈ rest, b.type ≠ "phase_transition") →
      (emitSeq s rest).1.currentPhase = s.currentPhase ∧
      ∀ e ∈ (emitSeq s rest).2, e.phase = s.currentPhase := by
  induction rest with
  | nil => intro s _; exact ⟨rfl, by simp [emitSeq]⟩
  | cons b bs ih =>
      intro s hb
      have hbt : b.type ≠ "phase_transition" := hb b (List.mem_cons_self b bs)
      have hbt' : (b.type == "phase_transition") = false := by simpa using hbt
      have hphase : (emit s b).1.currentPhase = s.currentPhase := by
        rw [emit_currentPhase, hbt']
        simp
      obtain ⟨h1, h2⟩ := ih (emit s b).1
        (fun x hx => hb x (List.mem_cons_of_mem b hx))
      refine ⟨?_, ?_⟩
      · rw [emitSeq_fst, h1, hphase]
      · intro e he
        rw [emitSeq_snd] at he
        rcases List.mem_cons.mp he with rfl | he'
        · rfl
        · rw [h2 e he', hphase]

/-- C9 (confirmed): the default `phase_transition` hook installed at
construction keeps the phase context coherent — after `emit` of a
`phase_transition` with payload `data`, the instance's `currentPhase` is
`data.to`, and every event emitted afterwards (until the next
`phase_transition`) is stamped with `phase = data.to`. -/
theorem phase_transition_updates_current_phase
    (s : PDLState) (a : EmitArgs) (rest : List EmitArgs)
    (hA : a.type = "phase_transition")
    (hrest : ∀ b ∈ rest, b.type ≠ "phase_transition") :
    ((emit s a).1.currentPhase = lookupField a.data "to") ∧
    ((emitSeq (emit s a).1 rest).1.currentPhase
      = lookupField a.data "to") ∧
    (∀ e ∈ (emitSeq (emit s a).1 rest).2,
      e.phase = lookupField a.data "to") := by
  have hA' : (a.type == "phase_transition") = true := by simpa using hA
  have h0 : (emit s a).1.currentPhase = lookupField a.data "to" := by
    rw [emit_currentPhase, hA']
    simp
  obtain ⟨h1, h2⟩ := emitSeq_currentPhase_frozen rest (emit s a).1 hrest
  exact ⟨h0, by rw [h1, h0], fun e he => by rw [h2 e he, h0]⟩

/-- C9 (witness): after transitioning to `planning` and emitting one
further `discovery` event, `currentPhase` is still the transition's
`data.to`. -/
theorem phase_transition_updates_current_phase_witness :
    (emitSeq (emit initialState
      { id := 1, type := "phase_transition",
        data := [("from", "discovery"), ("to", "planning")] }).1
      [{ id := 2, type := "discovery",
         data := [("summary", "s")] }]).1.currentPhase
      = lookupField [("from", "discovery"), ("to", "planning")] "to" :=
  (phase_transition_updates_current_phase initialState
    { id := 1, type := "phase_transition",
      data := [("from", "discovery"), ("to", "planning")] }
    [{ id := 2, type := "discovery", data := [("summary", "s")] }]
    rfl (by decide)).2.1

/-! ## Claim C10: `agent_assigned` is idempotent on the agent set -/

theorem mem_setAdd_self (l : List String) (a : String) : a ∈ setAdd l a := by
  unfold setAdd
  split_ifs with h
  · exact h
  · exact List.mem_append_right l (by simp)

theorem setAdd_idem (l : List String) (a : String) :
    setAdd (setAdd l a) a = setAdd l a := by
  show (if a ∈ setAdd l a then setAdd l a else setAdd l a ++ [a])
      = setAdd l a
  rw [if_pos (mem_setAdd_self l a)]

theorem setAdd_nodup (l : List String) (a : String) (h : l.Nodup) :
    (setAdd l a).Nodup := by
  unfold setAdd
  split_ifs with hm
  · exact h
  · refine List.Nodup.append h (List.nodup_singleton a) ?_
    intro x hx hxa
    rw [List.mem_singleton] at hxa
    exact hm (hxa ▸ hx)

theorem emitSeq_activeAgents_nodup (argsL : List EmitArgs) :
    ∀ s : PDLState, s.activeAgents.Nodup →
      (emitSeq s argsL).1.activeAgents.Nodup := by
  induction argsL with
  | nil => intro s h; exact h
  | cons a rest ih =>
      intro s h
      rw [emitSeq_fst]
      apply ih
      rw [emit_activeAgents]
      split_ifs
      · exact setAdd_nodup _ _ h
      · exact h

/-- C10 (confirmed): emitting `agent_assigned` twice with the same
`data.agent` leaves `activeAgents` exactly as after emitting it once
(the JS `Set` ignores the duplicate `add`), and `getCurrentState()`
never reports duplicate agent names from a default-constructed
instance under any emission sequence. -/
theorem agent_assigned_idempotent_nodup :
    (∀ (s : PDLState) (a b : EmitArgs), a.type = "agent_assigned" →
      b.type = "agent_assigned" →
      lookupField a.data "agent" = lookupField b.data "agent" →
      (emit (emit s a).1 b).1.activeAgents = (emit s a).1.activeAgents) ∧
    (∀ argsL : List EmitArgs,
      (getCurrentState (emitSeq initialState argsL).1).activeAgents.Nodup)
    := by
  constructor
  · intro s a b ha hb hagent
    have ha' : (a.type == "agent_assigned") = true := by simpa using ha
    have hb' : (b.type == "agent_assigned") = true := by simpa using hb
    simp only [emit_activeAgents, ha', hb', if_true]
    rw [← hagent]
    exact setAdd_idem _ _
  · intro argsL
    show (emitSeq initialState argsL).1.activeAgents.Nodup
    exact emitSeq_activeAgents_nodup argsL initialState List.nodup_nil

/-- C10 (witness): assigning agent `alice` twice (different roles) adds
her to the active set only once. -/
theorem agent_assigned_idempotent_witness :
    (emit (emit initialState
      { id := 1, type := "agent_assigned",
        data := [("agent", "alice"), ("role", "dev")] }).1
      { id := 2, type := "agent_assigned",
        data := [("agent", "alice"), ("role", "qa")] }).1.activeAgents
      = (emit initialState
        { id := 1, type := "agent_assigned",
          data := [("agent", "alice"), ("role", "dev")] }).1.activeAgents :=
  agent_assigned_idempotent_nodup.1 initialState
    { id := 1, type := "agent_assigned",
      data := [("agent", "alice"), ("role", "dev")] }
    { id := 2, type := "agent_assigned",
      data := [("agent", "alice"), ("role", "qa")] }
    rfl rfl (by decide)
